import Mathlib

/-!
# Shallow embedding of the translation-sync tool

This file embeds the key-reconciliation engine of the repository
(`scripts/translations/yaml_manager.py`, `scripts/translations/coverage.py`,
`scripts/translations/obsolete.py`) and proves the specified properties of
`merge_new_keys`, `calculate_coverage`, `find_obsolete_keys`,
`mark_obsolete_keys`, `delete_obsolete_keys` and `load_yaml_file`.

Modelling conventions:
* A YAML document (`YamlData`) has an optional `locale` field and an optional
  `translations` field.  A Python dict preserves insertion order and has
  unique keys, so a `translations` mapping is an association list
  `List (String × String)`; `none` stands for the field being absent or
  explicitly null (the code treats both the same on every path the claims
  touch: `data.get("translations", {})` followed by a falsiness test or a
  `None` test).
* A file in the YAML directory (`YamlFile`) is its stem (the file name is
  always `stem ++ ".yml"` because the code globs `*.yml`) together with the
  parser's output: `none` when the file is empty or has no parseable
  structure (the parser yields no document), `some d` otherwise.
* A Python `set` argument is modelled as a `List String` enumerating it
  (iteration order of a set is arbitrary; theorems hold for every order).
* Python `str.startswith` and `str.strip` act on the character sequence of
  the string, so they are modelled on `String.data`.
* Python floats for coverage percentages are modelled exactly in `ℚ`;
  `round(x, 1)` is modelled as rounding `x * 10` to an integer, divided
  by `10`.
-/

namespace TranslationSync

/-- A parsed YAML translation document: optional `locale` and optional
`translations` fields (`translations = none` models an absent or null
mapping). -/
structure YamlData where
  locale : Option String
  translations : Option (List (String × String))
deriving Repr, DecidableEq

/-- A file of the YAML directory: its stem (file name is `stem ++ ".yml"`)
and the parser's result for its content (`none`: empty / no structure). -/
structure YamlFile where
  stem : String
  parsed : Option YamlData
deriving Repr, DecidableEq

/-- `load_yaml_file` (yaml_manager.py lines 44-62): the parsed document, or
`{"locale": "", "translations": {}}` when the parser produced no document
(`return data or {...}`). -/
def load_yaml_file (parsed : Option YamlData) : YamlData :=
  match parsed with
  | none => { locale := some "", translations := some [] }
  | some d => d

/-- Dict lookup on an association list: value at the first entry whose key
matches (Python dicts have unique keys, so this is the dict value). -/
def lookup (ts : List (String × String)) (k : String) : Option String :=
  (ts.find? (fun p => p.1 == k)).map Prod.snd

/-- `key in translations`: dict key membership. -/
def hasKey (ts : List (String × String)) (k : String) : Prop :=
  k ∈ ts.map Prod.fst

instance (ts : List (String × String)) (k : String) : Decidable (hasKey ts k) :=
  inferInstanceAs (Decidable (k ∈ ts.map Prod.fst))

/-- Translations of a file as the merge/coverage/obsolete code sees them:
`data.get("translations", {})` with null also normalised to the empty
mapping. -/
def fileTranslations (f : YamlFile) : List (String × String) :=
  (load_yaml_file f.parsed).translations.getD []

/-- `data.get("locale", yaml_path.stem)`. -/
def fileLocale (f : YamlFile) : String :=
  (load_yaml_file f.parsed).locale.getD f.stem

/-- Python's ordering on `(key, value)` pairs as used by
`sorted(translations.items())`: lexicographic on the pair. -/
def pairLe (a b : String × String) : Prop :=
  a.1 < b.1 ∨ (a.1 = b.1 ∧ a.2 ≤ b.2)

instance : DecidableRel pairLe := fun a b =>
  inferInstanceAs (Decidable (a.1 < b.1 ∨ (a.1 = b.1 ∧ a.2 ≤ b.2)))

instance : IsTotal (String × String) pairLe where
  total a b := by
    rcases lt_trichotomy a.1 b.1 with h | h | h
    · exact Or.inl (Or.inl h)
    · rcases le_total a.2 b.2 with h2 | h2
      · exact Or.inl (Or.inr ⟨h, h2⟩)
      · exact Or.inr (Or.inr ⟨h.symm, h2⟩)
    · exact Or.inr (Or.inl h)

instance : IsTrans (String × String) pairLe where
  trans a b c hab hbc := by
    rcases hab with h1 | ⟨h1, h1'⟩
    · rcases hbc with h2 | ⟨h2, _⟩
      · exact Or.inl (h1.trans h2)
      · exact Or.inl (h2 ▸ h1)
    · rcases hbc with h2 | ⟨h2, h2'⟩
      · exact Or.inl (h1 ▸ h2)
      · exact Or.inr ⟨h1.trans h2, h1'.trans h2'⟩

/-- `dict(sorted(translations.items()))` (yaml_manager.py line 128): a stable
sort of the entries by Python's pair order. -/
def sortTranslations (ts : List (String × String)) : List (String × String) :=
  ts.insertionSort pairLe

/-- One iteration of the key loop of `merge_new_keys` (yaml_manager.py
lines 112-120): a key absent from the mapping is inserted at the end
(Python dict insertion order) with the key itself as value for locale "en"
and the empty string otherwise, and the per-file counter is incremented. -/
def mergeStep (locale : String) (acc : List (String × String) × Nat)
    (key : String) : List (String × String) × Nat :=
  if hasKey acc.1 key then acc
  else (acc.1 ++ [(key, if locale = "en" then key else "")], acc.2 + 1)

/-- The key loop of `merge_new_keys` (yaml_manager.py lines 112-120). -/
def mergeIntoTranslations (locale : String) (newKeys : List String)
    (ts : List (String × String)) : List (String × String) × Nat :=
  newKeys.foldl (mergeStep locale) (ts, 0)

/-- One iteration of the file loop of `merge_new_keys` (yaml_manager.py
lines 101-132): the file's state after the iteration (re-sorted and saved
when at least one key was added, untouched otherwise) together with
`keys_added_to_file`. -/
def mergeFile (newKeys : List String) (f : YamlFile) : YamlFile × Nat :=
  let d := load_yaml_file f.parsed
  let locale := d.locale.getD f.stem
  let ts := d.translations.getD []
  let m := mergeIntoTranslations locale newKeys ts
  if 0 < m.2 then
    ({ stem := f.stem,
       parsed := some { locale := d.locale,
                        translations := some (sortTranslations m.1) } }, m.2)
  else (f, m.2)

/-- Result of a merge operation (yaml_manager.py lines 23-29). -/
structure MergeResult where
  keys_added : Nat
  files_modified : Nat
  keys_per_file : List (String × Nat)
deriving Repr, DecidableEq

/-- `merge_new_keys` (yaml_manager.py lines 82-134) over a directory, given
as the list of its `*.yml` files in glob order: the directory's state after
the call (files are only written when keys were added and `dry_run` is
false) and the `MergeResult`. -/
def merge_new_keys (files : List YamlFile) (newKeys : List String)
    (dry_run : Bool) : List YamlFile × MergeResult :=
  (files.map (fun f => if dry_run then f else (mergeFile newKeys f).1),
   { keys_added := (files.map (fun f => (mergeFile newKeys f).2)).sum,
     files_modified :=
       (files.filter (fun f => 0 < (mergeFile newKeys f).2)).length,
     keys_per_file :=
       (files.filter (fun f => 0 < (mergeFile newKeys f).2)).map
         (fun f => (f.stem ++ ".yml", (mergeFile newKeys f).2)) })

/-- A small concrete base-locale catalog file used by witnesses. -/
def sampleEn : YamlFile :=
  { stem := "en",
    parsed := some { locale := some "en",
                     translations := some [("A", "A"), ("B", "B")] } }

/-- A small concrete non-base catalog file used by witnesses. -/
def sampleDe : YamlFile :=
  { stem := "de",
    parsed := some { locale := some "de",
                     translations := some [("A", "A-de"), ("B", "")] } }

/-- Per-language statistics (coverage.py lines 14-21); `missing` is a Python
int and may in principle be negative, so it is embedded as `ℤ`, and the
percentage is an exact rational. -/
structure LanguageStats where
  total : ℤ
  translated : ℤ
  missing : ℤ
  percentage : ℚ
deriving Repr, DecidableEq

/-- Python `round(x, 1)` on the exact rational value. -/
def pyRound1 (q : ℚ) : ℚ := (round (q * 10) : ℤ) / 10

/-- Python `str.strip()`, modelled on the character sequence: drop
whitespace from both ends. -/
def pyStrip (s : String) : List Char :=
  ((s.data.dropWhile Char.isWhitespace).reverse.dropWhile
      Char.isWhitespace).reverse

/-- Truthiness test `value and str(value).strip()` of coverage.py line 72:
non-empty and non-empty after stripping whitespace. -/
def pyTruthy (v : String) : Bool := !(v == "") && !(pyStrip v).isEmpty

/-- The choice of base file of `calculate_coverage` (coverage.py lines
40-46): the file named `{base_locale}.yml` when it exists, else the first
globbed file, else none. -/
def baseFileOf (files : List YamlFile) (base_locale : String) :
    Option YamlFile :=
  (files.find? (fun f => f.stem == base_locale)).or files.head?

/-- The per-file body of the coverage loop (coverage.py lines 53-83),
producing this file's `(locale, stats)` entry of the result. -/
def coverageEntry (base_translations : List (String × String))
    (base_locale : String) (f : YamlFile) : String × LanguageStats :=
  let total : ℤ := if base_translations.isEmpty then 0
                   else base_translations.length
  let locale := fileLocale f
  let ts := fileTranslations f
  if locale = base_locale then
    (locale, { total := total, translated := total, missing := 0,
               percentage := 100 })
  else
    let translated : ℤ :=
      if ts.isEmpty then 0
      else ((base_translations.map Prod.fst).filter
              (fun k => pyTruthy ((lookup ts k).getD ""))).length
    let missing := total - translated
    let percentage : ℚ :=
      if 0 < total then (translated : ℚ) / (total : ℚ) * 100 else 100
    (locale, { total := total, translated := translated, missing := missing,
               percentage := pyRound1 percentage })

/-- `calculate_coverage` (coverage.py lines 24-85): the list of per-file
`(locale, stats)` entries in glob order (the Python result dict is keyed by
locale, a later file with the same locale overwriting an earlier one). -/
def calculate_coverage (files : List YamlFile) (base_locale : String) :
    List (String × LanguageStats) :=
  match baseFileOf files base_locale with
  | none => []
  | some baseFile =>
      let base_translations := fileTranslations baseFile
      files.map (coverageEntry base_translations base_locale)

/-- `find_obsolete_keys` (obsolete.py lines 14-52).  The extractor is not
part of the reconciliation engine: its outputs are taken as inputs — the
markup scan's strings, and the auxiliary C++ scan's strings when a C++
directory was supplied and exists (`none` otherwise); `used_strings` is
their union.  The result is the base catalog's keys minus `used_strings`,
or empty when the base file is missing or its mapping is empty. -/
def find_obsolete_keys (xmlStrings : List String)
    (cppStrings : Option (List String)) (files : List YamlFile)
    (base_locale : String) : List String :=
  let used_strings := match cppStrings with
    | some cs => xmlStrings ++ cs
    | none => xmlStrings
  match files.find? (fun f => f.stem == base_locale) with
  | none => []
  | some baseFile =>
      let base_translations := fileTranslations baseFile
      if base_translations.isEmpty then []
      else (base_translations.map Prod.fst).filter
             (fun k => !(used_strings.contains k))

/-- `translations[key] = v` on an existing key: Python dict update in place
(position and the other entries untouched). -/
def setKey (ts : List (String × String)) (k v : String) :
    List (String × String) :=
  ts.map (fun p => if p.1 = k then (p.1, v) else p)

/-- Python `str.startswith`, on the character sequence. -/
def pyStartswith (s pre : String) : Bool := pre.data.isPrefixOf s.data

/-- One iteration of the key loop of `mark_obsolete_keys` (obsolete.py
lines 102-108): an obsolete key present in the mapping whose value does not
already start with `"[DEPRECATED]"` has its value prefixed with
`"[DEPRECATED] "` and is counted. -/
def markStep (acc : List (String × String) × Nat) (key : String) :
    List (String × String) × Nat :=
  match lookup acc.1 key with
  | none => acc
  | some value =>
      if pyStartswith value "[DEPRECATED]" then acc
      else (setKey acc.1 key ("[DEPRECATED] " ++ value), acc.2 + 1)

/-- The key loop of `mark_obsolete_keys` (obsolete.py lines 102-108). -/
def markTranslations (obsolete_keys : List String)
    (ts : List (String × String)) : List (String × String) × Nat :=
  obsolete_keys.foldl markStep (ts, 0)

/-- A (catalog, key) pair is newly marked by `mark_obsolete_keys` when the
key is present in the mapping with a value that does not already carry the
deprecation marker. -/
def needsMark (ts : List (String × String)) (k : String) : Bool :=
  match lookup ts k with
  | some w => !(pyStartswith w "[DEPRECATED]")
  | none => false

/-- One iteration of the file loop of `mark_obsolete_keys` (obsolete.py
lines 92-111): files with an empty mapping are skipped, a file is saved
only when modified and not in dry-run. -/
def markFile (obsolete_keys : List String) (dry_run : Bool) (f : YamlFile) :
    YamlFile × Nat :=
  let d := load_yaml_file f.parsed
  let ts := d.translations.getD []
  if ts.isEmpty then (f, 0)
  else
    let m := markTranslations obsolete_keys ts
    if 0 < m.2 && !dry_run then
      ({ stem := f.stem,
         parsed := some { locale := d.locale, translations := some m.1 } },
       m.2)
    else (f, m.2)

/-- `mark_obsolete_keys` (obsolete.py lines 73-113): the directory state
after the call and the number of newly marked (catalog, key) pairs; an
empty obsolete set returns immediately. -/
def mark_obsolete_keys (files : List YamlFile) (obsolete_keys : List String)
    (dry_run : Bool) : List YamlFile × Nat :=
  if obsolete_keys.isEmpty then (files, 0)
  else
    (files.map (fun f => (markFile obsolete_keys dry_run f).1),
     (files.map (fun f => (markFile obsolete_keys dry_run f).2)).sum)

/-- One iteration of the file loop of `delete_obsolete_keys` (obsolete.py
lines 135-151): every entry whose key is in the obsolete set is removed
(the loop over a snapshot of the keys with `del` is exactly a filter on the
ordered entries); a file is saved only when modified and not in dry-run. -/
def deleteFile (obsolete_keys : List String) (dry_run : Bool)
    (f : YamlFile) : YamlFile × Nat :=
  let d := load_yaml_file f.parsed
  let ts := d.translations.getD []
  if ts.isEmpty then (f, 0)
  else
    let kept := ts.filter (fun p => !(obsolete_keys.contains p.1))
    let n := (ts.filter (fun p => obsolete_keys.contains p.1)).length
    if 0 < n && !dry_run then
      ({ stem := f.stem,
         parsed := some { locale := d.locale,
                          translations := some kept } }, n)
    else (f, n)

/-- `delete_obsolete_keys` (obsolete.py lines 116-153): the directory state
after the call and the number of deleted (catalog, key) pairs; an empty
obsolete set returns immediately. -/
def delete_obsolete_keys (files : List YamlFile)
    (obsolete_keys : List String) (dry_run : Bool) :
    List YamlFile × Nat :=
  if obsolete_keys.isEmpty then (files, 0)
  else
    (files.map (fun f => (deleteFile obsolete_keys dry_run f).1),
     (files.map (fun f => (deleteFile obsolete_keys dry_run f).2)).sum)

/-! ## Basic lemmas on association-list dictionaries -/

theorem hasKey_iff {ts : List (String × String)} {k : String} :
    hasKey ts k ↔ ∃ p ∈ ts, p.1 = k := by
  simp [hasKey, List.mem_map]

theorem lookup_eq_none {ts : List (String × String)} {k : String} :
    lookup ts k = none ↔ ¬ hasKey ts k := by
  simp [lookup, List.find?_eq_none, hasKey, List.mem_map]
  constructor
  · intro h p hp
    exact h k p hp rfl
  · intro h a b hab ha
    subst ha
    exact h b hab

theorem hasKey_append {ts ts2 : List (String × String)} {k : String} :
    hasKey (ts ++ ts2) k ↔ hasKey ts k ∨ hasKey ts2 k := by
  simp [hasKey]

theorem lookup_append_left {ts ts2 : List (String × String)} {k v : String}
    (h : lookup ts k = some v) : lookup (ts ++ ts2) k = some v := by
  unfold lookup at h ⊢
  rw [List.find?_append]
  cases hf : ts.find? (fun p => p.1 == k) with
  | none => rw [hf] at h; simp at h
  | some p => rw [hf] at h; simpa using h

theorem lookup_eq_some_iff {ts : List (String × String)} {k v : String}
    (h : (ts.map Prod.fst).Nodup) : lookup ts k = some v ↔ (k, v) ∈ ts := by
  induction ts with
  | nil => simp [lookup]
  | cons p rest ih =>
      rw [List.map_cons, List.nodup_cons] at h
      by_cases hpk : p.1 = k
      · have hl : lookup (p :: rest) k = some p.2 := by
          simp [lookup, List.find?_cons_of_pos, hpk]
        rw [hl]
        constructor
        · rintro h2
          have : (k, v) = p := by
            cases p with
            | mk a b =>
                simp only [Option.some.injEq] at h2
                simp_all
          simp [this]
        · intro h2
          rcases List.mem_cons.mp h2 with h3 | h3
          · cases p with
            | mk a b => simp_all
          · exact absurd (hpk ▸ List.mem_map_of_mem Prod.fst h3) h.1
      · have hl : lookup (p :: rest) k = lookup rest k := by
          simp [lookup, List.find?_cons_of_neg, hpk]
        rw [hl, ih h.2]
        constructor
        · exact fun h2 => List.mem_cons_of_mem _ h2
        · intro h2
          rcases List.mem_cons.mp h2 with h3 | h3
          · exact absurd (congrArg Prod.fst h3.symm) hpk
          · exact h3

theorem hasKey_of_perm {ts ts' : List (String × String)} {k : String}
    (hp : ts.Perm ts') : hasKey ts k ↔ hasKey ts' k :=
  (hp.map Prod.fst).mem_iff

theorem lookup_perm {ts ts' : List (String × String)} {k : String}
    (h : (ts.map Prod.fst).Nodup) (hp : ts.Perm ts') :
    lookup ts k = lookup ts' k := by
  have h' : (ts'.map Prod.fst).Nodup := ((hp.map Prod.fst).nodup_iff).mp h
  cases hv : lookup ts k with
  | none =>
      symm
      rw [lookup_eq_none] at hv ⊢
      exact fun hk => hv ((hasKey_of_perm hp).mpr hk)
  | some v =>
      symm
      rw [lookup_eq_some_iff h'] at *
      rw [lookup_eq_some_iff h] at hv
      exact hp.mem_iff.mp hv

/-! ## Lemmas on the merge loop -/

theorem mergeFold_shift (locale : String) (ks : List String) :
    ∀ (ts : List (String × String)) (n : Nat),
      ks.foldl (mergeStep locale) (ts, n)
        = ((ks.foldl (mergeStep locale) (ts, 0)).1,
           n + (ks.foldl (mergeStep locale) (ts, 0)).2) := by
  induction ks with
  | nil => intro ts n; simp
  | cons k rest ih =>
      intro ts n
      simp only [List.foldl_cons]
      by_cases h : hasKey ts k
      · simp only [mergeStep, h, if_true]
        exact ih ts n
      · simp only [mergeStep, h, if_false]
        rw [ih _ (n + 1), ih _ (0 + 1)]
        refine Prod.ext rfl ?_
        simp
        omega

theorem mergeInto_cons (locale k : String) (ks : List String)
    (ts : List (String × String)) :
    mergeIntoTranslations locale (k :: ks) ts =
      if hasKey ts k then mergeIntoTranslations locale ks ts
      else
        ((mergeIntoTranslations locale ks
            (ts ++ [(k, if locale = "en" then k else "")])).1,
         (mergeIntoTranslations locale ks
            (ts ++ [(k, if locale = "en" then k else "")])).2 + 1) := by
  unfold mergeIntoTranslations
  simp only [List.foldl_cons]
  by_cases h : hasKey ts k
  · simp only [mergeStep, h, if_true]
  · simp only [mergeStep, h, if_false]
    rw [mergeFold_shift]
    refine Prod.ext rfl ?_
    simp
    omega

theorem mergeInto_shape (locale : String) (ks : List String) :
    ∀ ts : List (String × String), ∃ extra,
      (mergeIntoTranslations locale ks ts).1 = ts ++ extra ∧
      (mergeIntoTranslations locale ks ts).2 = extra.length := by
  induction ks with
  | nil => intro ts; exact ⟨[], by simp [mergeIntoTranslations]⟩
  | cons k rest ih =>
      intro ts
      rw [mergeInto_cons]
      by_cases h : hasKey ts k
      · simpa [h] using ih ts
      · simp only [h, if_false]
        obtain ⟨extra, h1, h2⟩ := ih (ts ++ [(k, if locale = "en" then k else "")])
        refine ⟨(k, if locale = "en" then k else "") :: extra, ?_, ?_⟩
        · rw [h1, List.append_assoc]
          rfl
        · simp [h2]

theorem mergeInto_hasKey (locale : String) (ks : List String) :
    ∀ (ts : List (String × String)) (k : String), k ∈ ks →
      hasKey (mergeIntoTranslations locale ks ts).1 k := by
  induction ks with
  | nil => intro ts k h; exact absurd h (List.not_mem_nil k)
  | cons k' rest ih =>
      intro ts k hmem
      rw [mergeInto_cons]
      by_cases h : hasKey ts k'
      · simp only [h, if_true]
        rcases List.mem_cons.mp hmem with rfl | h2
        · obtain ⟨extra, h1, _⟩ := mergeInto_shape locale rest ts
          rw [h1]
          exact hasKey_append.mpr (Or.inl h)
        · exact ih ts k h2
      · simp only [h, if_false]
        rcases List.mem_cons.mp hmem with rfl | h2
        · obtain ⟨extra, h1, _⟩ :=
            mergeInto_shape locale rest (ts ++ [(k, if locale = "en" then k else "")])
          show hasKey _ k
          rw [h1]
          refine hasKey_append.mpr (Or.inl (hasKey_append.mpr (Or.inr ?_)))
          simp [hasKey]
        · exact ih _ k h2

theorem mergeInto_noop (locale : String) {ks : List String}
    {ts : List (String × String)} (h : ∀ k ∈ ks, hasKey ts k) :
    mergeIntoTranslations locale ks ts = (ts, 0) := by
  induction ks with
  | nil => simp [mergeIntoTranslations]
  | cons k rest ih =>
      rw [mergeInto_cons]
      have hk : hasKey ts k := h k (List.mem_cons_self k rest)
      simp only [hk, if_true]
      exact ih (fun k2 h2 => h k2 (List.mem_cons_of_mem _ h2))

theorem mergeInto_count_zero {locale : String} {ks : List String}
    {ts : List (String × String)}
    (h : (mergeIntoTranslations locale ks ts).2 = 0) :
    (mergeIntoTranslations locale ks ts).1 = ts ∧ ∀ k ∈ ks, hasKey ts k := by
  obtain ⟨extra, h1, h2⟩ := mergeInto_shape locale ks ts
  rw [h] at h2
  have hx : extra = [] := List.eq_nil_of_length_eq_zero h2.symm
  subst hx
  have h1' : (mergeIntoTranslations locale ks ts).1 = ts := by simpa using h1
  refine ⟨h1', fun k hk => ?_⟩
  have := mergeInto_hasKey locale ks ts k hk
  rwa [h1'] at this

theorem mergeInto_lookup_preserved (locale : String) (ks : List String)
    {ts : List (String × String)} {k v : String}
    (h : lookup ts k = some v) :
    lookup (mergeIntoTranslations locale ks ts).1 k = some v := by
  obtain ⟨extra, h1, _⟩ := mergeInto_shape locale ks ts
  rw [h1]
  exact lookup_append_left h

theorem mergeInto_lookup_new (locale : String) (ks : List String) :
    ∀ (ts : List (String × String)) (k : String), k ∈ ks → ¬ hasKey ts k →
      lookup (mergeIntoTranslations locale ks ts).1 k
        = some (if locale = "en" then k else "") := by
  induction ks with
  | nil => intro ts k h _; exact absurd h (List.not_mem_nil k)
  | cons k' rest ih =>
      intro ts k hmem habs
      rw [mergeInto_cons]
      by_cases hkk : k = k'
      · subst hkk
        simp only [habs, if_false]
        refine mergeInto_lookup_preserved locale rest ?_
        have hn : ts.find? (fun p => p.1 == k) = none := by
          have h0 : lookup ts k = none := lookup_eq_none.mpr habs
          unfold lookup at h0
          exact Option.map_eq_none'.mp h0
        unfold lookup
        rw [List.find?_append, hn]
        simp
      · have h2 : k ∈ rest := by
          rcases List.mem_cons.mp hmem with h3 | h3
          · exact absurd h3 hkk
          · exact h3
        by_cases h : hasKey ts k'
        · simp only [h, if_true]
          exact ih ts k h2 habs
        · simp only [h, if_false]
          refine ih _ k h2 ?_
          intro hk
          rcases hasKey_append.mp hk with h3 | h3
          · exact habs h3
          · simp [hasKey] at h3
            exact hkk h3

theorem mergeInto_nodup (locale : String) (ks : List String) :
    ∀ ts : List (String × String), (ts.map Prod.fst).Nodup →
      ((mergeIntoTranslations locale ks ts).1.map Prod.fst).Nodup := by
  induction ks with
  | nil => intro ts h; simpa [mergeIntoTranslations] using h
  | cons k rest ih =>
      intro ts h
      rw [mergeInto_cons]
      by_cases hk : hasKey ts k
      · simp only [hk, if_true]
        exact ih ts h
      · simp only [hk, if_false]
        refine ih _ ?_
        rw [List.map_append, List.nodup_append]
        refine ⟨h, by simp, ?_⟩
        intro a ha hb
        simp at hb
        subst hb
        exact hk ha

/-! ## Lemmas on sorting and on the per-file merge -/

theorem sortTranslations_perm (ts : List (String × String)) :
    (sortTranslations ts).Perm ts :=
  List.perm_insertionSort pairLe ts

theorem mergeFile_snd (ks : List String) (f : YamlFile) :
    (mergeFile ks f).2
      = (mergeIntoTranslations (fileLocale f) ks (fileTranslations f)).2 := by
  simp only [mergeFile, fileLocale, fileTranslations]
  split <;> rfl

theorem mergeFile_fst_zero (ks : List String) (f : YamlFile)
    (h : (mergeFile ks f).2 = 0) : (mergeFile ks f).1 = f := by
  rw [mergeFile_snd] at h
  simp only [fileLocale, fileTranslations] at h
  simp only [mergeFile]
  split
  · rename_i hpos
    exact absurd h (Nat.pos_iff_ne_zero.mp hpos)
  · rfl

theorem mergeFile_fst_pos (ks : List String) (f : YamlFile)
    (h : 0 < (mergeFile ks f).2) :
    (mergeFile ks f).1
      = { stem := f.stem,
          parsed := some
            { locale := (load_yaml_file f.parsed).locale,
              translations := some (sortTranslations
                (mergeIntoTranslations (fileLocale f) ks
                  (fileTranslations f)).1) } } := by
  rw [mergeFile_snd] at h
  simp only [fileLocale, fileTranslations] at h
  simp only [mergeFile, fileLocale, fileTranslations]
  split
  · rfl
  · rename_i hneg
    exact absurd h hneg

theorem mergeFile_locale (ks : List String) (f : YamlFile) :
    fileLocale (mergeFile ks f).1 = fileLocale f := by
  rcases Nat.eq_zero_or_pos (mergeFile ks f).2 with h0 | h0
  · rw [mergeFile_fst_zero ks f h0]
  · rw [mergeFile_fst_pos ks f h0]
    unfold fileLocale load_yaml_file
    rfl

theorem mergeFile_hasKey_all (ks : List String) (f : YamlFile) {k : String}
    (h : k ∈ ks) : hasKey (fileTranslations (mergeFile ks f).1) k := by
  rcases Nat.eq_zero_or_pos (mergeFile ks f).2 with h0 | h0
  · rw [mergeFile_fst_zero ks f h0]
    rw [mergeFile_snd] at h0
    exact (mergeInto_count_zero h0).2 k h
  · rw [mergeFile_fst_pos ks f h0]
    have h1 := mergeInto_hasKey (fileLocale f) ks (fileTranslations f) k h
    have h2 : fileTranslations
        { stem := f.stem,
          parsed := some
            { locale := (load_yaml_file f.parsed).locale,
              translations := some (sortTranslations
                (mergeIntoTranslations (fileLocale f) ks
                  (fileTranslations f)).1) } }
        = sortTranslations (mergeIntoTranslations (fileLocale f) ks
            (fileTranslations f)).1 := rfl
    rw [h2]
    exact (hasKey_of_perm (sortTranslations_perm _)).mpr h1

theorem mergeFile_translations_pos (ks : List String) (f : YamlFile)
    (h : 0 < (mergeFile ks f).2) :
    fileTranslations (mergeFile ks f).1
      = sortTranslations (mergeIntoTranslations (fileLocale f) ks
          (fileTranslations f)).1 := by
  rw [mergeFile_fst_pos ks f h]
  rfl

theorem mergeFile_idempotent (ks : List String) (f : YamlFile) :
    mergeFile ks (mergeFile ks f).1 = ((mergeFile ks f).1, 0) := by
  have hall : ∀ k ∈ ks, hasKey (fileTranslations (mergeFile ks f).1) k :=
    fun k hk => mergeFile_hasKey_all ks f hk
  have hnoop : mergeIntoTranslations (fileLocale (mergeFile ks f).1) ks
      (fileTranslations (mergeFile ks f).1)
      = (fileTranslations (mergeFile ks f).1, 0) :=
    mergeInto_noop (fileLocale (mergeFile ks f).1) hall
  have hsnd : (mergeFile ks (mergeFile ks f).1).2 = 0 := by
    rw [mergeFile_snd, hnoop]
  have hfst := mergeFile_fst_zero ks (mergeFile ks f).1 hsnd
  exact Prod.ext hfst hsnd

theorem mergeFile_lookup_preserved (ks : List String) {f : YamlFile}
    {k v : String}
    (hwf : ((fileTranslations f).map Prod.fst).Nodup)
    (h : lookup (fileTranslations f) k = some v) :
    lookup (fileTranslations (mergeFile ks f).1) k = some v := by
  rcases Nat.eq_zero_or_pos (mergeFile ks f).2 with h0 | h0
  · rw [mergeFile_fst_zero ks f h0]
    exact h
  · rw [mergeFile_translations_pos ks f h0]
    have h1 := mergeInto_lookup_preserved (fileLocale f) ks h
    have hnd := mergeInto_nodup (fileLocale f) ks (fileTranslations f) hwf
    rw [← lookup_perm hnd (sortTranslations_perm _).symm]
    exact h1

theorem mergeFile_lookup_new (ks : List String) {f : YamlFile} {k : String}
    (hwf : ((fileTranslations f).map Prod.fst).Nodup)
    (hmem : k ∈ ks) (habs : ¬ hasKey (fileTranslations f) k) :
    lookup (fileTranslations (mergeFile ks f).1) k
      = some (if fileLocale f = "en" then k else "") := by
  have hpos : 0 < (mergeFile ks f).2 := by
    rw [mergeFile_snd]
    rcases Nat.eq_zero_or_pos
      (mergeIntoTranslations (fileLocale f) ks (fileTranslations f)).2
      with h0 | h0
    · exact absurd ((mergeInto_count_zero h0).2 k hmem) habs
    · exact h0
  rw [mergeFile_translations_pos ks f hpos]
  have h1 := mergeInto_lookup_new (fileLocale f) ks (fileTranslations f) k
    hmem habs
  have hnd := mergeInto_nodup (fileLocale f) ks (fileTranslations f) hwf
  rw [← lookup_perm hnd (sortTranslations_perm _).symm]
  exact h1

theorem mergeFile_sorted (ks : List String) {f : YamlFile}
    (h : 0 < (mergeFile ks f).2) :
    List.Sorted (fun a b : String × String => a.1 ≤ b.1)
      (fileTranslations (mergeFile ks f).1) := by
  rw [mergeFile_translations_pos ks f h]
  refine (List.sorted_insertionSort pairLe _).imp ?_
  intro a b hab
  rcases hab with h1 | ⟨h1, _⟩
  · exact le_of_lt h1
  · exact le_of_eq h1

theorem merge_new_keys_length (files : List YamlFile) (ks : List String)
    (dr : Bool) : (merge_new_keys files ks dr).1.length = files.length := by
  simp [merge_new_keys]

theorem merge_new_keys_get (files : List YamlFile) (ks : List String)
    (dr : Bool) (i : Nat) (hi : i < files.length)
    (hi2 : i < (merge_new_keys files ks dr).1.length) :
    (merge_new_keys files ks dr).1.get ⟨i, hi2⟩
      = if dr then files.get ⟨i, hi⟩
        else (mergeFile ks (files.get ⟨i, hi⟩)).1 := by
  simp [merge_new_keys, List.get_eq_getElem, List.getElem_map]

/-- The second run of `merge_new_keys` with the same key set reports zero
keys added and zero files modified and leaves every file as the first run
left it. -/
theorem merge_dir_idempotent (files : List YamlFile) (ks : List String) :
    merge_new_keys (merge_new_keys files ks false).1 ks false
      = ((merge_new_keys files ks false).1,
         { keys_added := 0, files_modified := 0, keys_per_file := [] }) := by
  have hkey : ∀ g ∈ (merge_new_keys files ks false).1, mergeFile ks g = (g, 0) := by
    intro g hg
    simp only [merge_new_keys, List.mem_map] at hg
    obtain ⟨f2, hf2, hge⟩ := hg
    simp only [Bool.false_eq_true, if_false] at hge
    rw [← hge]
    exact mergeFile_idempotent ks f2
  have hfil : (merge_new_keys files ks false).1.filter
      (fun g => 0 < (mergeFile ks g).2) = [] := by
    rw [List.filter_eq_nil_iff]
    intro g hg
    rw [hkey g hg]
    simp
  conv_lhs => rw [merge_new_keys]
  refine Prod.ext ?_ ?_
  · show (merge_new_keys files ks false).1.map
        (fun f => if (false : Bool) then f else (mergeFile ks f).1)
      = (merge_new_keys files ks false).1
    have hcong : ∀ g ∈ (merge_new_keys files ks false).1,
        (if (false : Bool) then g else (mergeFile ks g).1) = id g := by
      intro g hg
      simp only [Bool.false_eq_true, if_false]
      rw [hkey g hg]
      rfl
    rw [List.map_congr_left hcong, List.map_id]
  · show MergeResult.mk
        ((merge_new_keys files ks false).1.map (fun f => (mergeFile ks f).2)).sum
        ((merge_new_keys files ks false).1.filter
          (fun f => 0 < (mergeFile ks f).2)).length
        (((merge_new_keys files ks false).1.filter
          (fun f => 0 < (mergeFile ks f).2)).map
            (fun f => (f.stem ++ ".yml", (mergeFile ks f).2)))
      = { keys_added := 0, files_modified := 0, keys_per_file := [] }
    simp only [MergeResult.mk.injEq]
    refine ⟨?_, ?_, ?_⟩
    · refine List.sum_eq_zero ?_
      intro x hx
      simp only [List.mem_map] at hx
      obtain ⟨g, hg, hge⟩ := hx
      rw [← hge, hkey g hg]
    · rw [hfil]
      rfl
    · rw [hfil]
      rfl

/-- Claim C1: merge is purely additive — for every translation directory,
key set, dry-run flag and file of the directory, every key present in that
file's translations before `merge_new_keys` still maps to its original
value (empty or not) afterwards. -/
theorem merge_preserves_existing_values (files : List YamlFile)
    (newKeys : List String) (dry_run : Bool) (i : Nat) (k v : String)
    (hi : i < files.length)
    (hi2 : i < (merge_new_keys files newKeys dry_run).1.length)
    (hwf : ((fileTranslations (files.get ⟨i, hi⟩)).map Prod.fst).Nodup)
    (hk : lookup (fileTranslations (files.get ⟨i, hi⟩)) k = some v) :
    lookup (fileTranslations
      ((merge_new_keys files newKeys dry_run).1.get ⟨i, hi2⟩)) k = some v := by
  rw [merge_new_keys_get files newKeys dry_run i hi hi2]
  cases dry_run with
  | true => simpa using hk
  | false =>
      simp only [Bool.false_eq_true, if_false]
      exact mergeFile_lookup_preserved newKeys hwf hk

/-- Witness for C1: a present key with an empty value survives a merge that
adds a new key. -/
theorem merge_preserves_existing_values_witness :
    lookup (fileTranslations
      ((merge_new_keys
          [{ stem := "de",
             parsed := some { locale := some "de",
                              translations := some [("A", "A-de"), ("B", "")] } }]
          ["B", "C"] false).1.get ⟨0, by decide⟩)) "B" = some "" :=
  merge_preserves_existing_values _ _ _ 0 "B" "" (by decide) (by decide)
    (by decide) (by decide)

/-- Claim C2: base-locale default law — a new key absent from a catalog is
inserted with the key itself as value when the catalog's locale is the base
locale "en", and with the empty string for every other locale. -/
theorem merge_inserts_default (files : List YamlFile) (newKeys : List String)
    (i : Nat) (k : String)
    (hi : i < files.length)
    (hi2 : i < (merge_new_keys files newKeys false).1.length)
    (hwf : ((fileTranslations (files.get ⟨i, hi⟩)).map Prod.fst).Nodup)
    (hmem : k ∈ newKeys)
    (habs : ¬ hasKey (fileTranslations (files.get ⟨i, hi⟩)) k) :
    lookup (fileTranslations
      ((merge_new_keys files newKeys false).1.get ⟨i, hi2⟩)) k
      = some (if fileLocale (files.get ⟨i, hi⟩) = "en" then k else "") := by
  rw [merge_new_keys_get files newKeys false i hi hi2]
  simp only [Bool.false_eq_true, if_false]
  exact mergeFile_lookup_new newKeys hwf hmem habs

/-- Witness for C2: merging "C" into an "en" catalog that lacks it. -/
theorem merge_inserts_default_witness :
    lookup (fileTranslations
      ((merge_new_keys
          [{ stem := "en",
             parsed := some { locale := some "en",
                              translations := some [("A", "A"), ("B", "B")] } }]
          ["C"] false).1.get ⟨0, by decide⟩)) "C"
      = some (if fileLocale
          { stem := "en",
            parsed := some { locale := some "en",
                             translations := some [("A", "A"), ("B", "B")] } }
          = "en" then "C" else "") :=
  merge_inserts_default _ _ 0 "C" (by decide) (by decide) (by decide)
    (by decide) (by decide)

/-- Claim C3: merge is idempotent — a second `merge_new_keys` with the same
key set reports zero keys added and zero files modified and writes no file
(the directory state is exactly the first run's); and in general a file to
which zero keys are added is never persisted (it stays exactly as it was). -/
theorem merge_idempotent (files : List YamlFile) (ks : List String)
    (f : YamlFile) (h : (mergeFile ks f).2 = 0) :
    (merge_new_keys (merge_new_keys files ks false).1 ks false
      = ((merge_new_keys files ks false).1,
         { keys_added := 0, files_modified := 0, keys_per_file := [] }))
    ∧ (mergeFile ks f).1 = f :=
  ⟨merge_dir_idempotent files ks, mergeFile_fst_zero ks f h⟩

/-- Witness for C3: a directory of one "en" file and one "de" file, merging
key "C"; a file already containing "C" gains nothing from merging "C". -/
theorem merge_idempotent_witness :
    (merge_new_keys (merge_new_keys
        [{ stem := "en",
           parsed := some { locale := some "en",
                            translations := some [("A", "A")] } },
         { stem := "de",
           parsed := some { locale := some "de",
                            translations := some [("A", "")] } }]
        ["C"] false).1 ["C"] false
      = ((merge_new_keys
        [{ stem := "en",
           parsed := some { locale := some "en",
                            translations := some [("A", "A")] } },
         { stem := "de",
           parsed := some { locale := some "de",
                            translations := some [("A", "")] } }]
        ["C"] false).1,
         { keys_added := 0, files_modified := 0, keys_per_file := [] }))
    ∧ (mergeFile ["C"]
        { stem := "fr",
          parsed := some { locale := some "fr",
                           translations := some [("C", "")] } }).1
      = { stem := "fr",
          parsed := some { locale := some "fr",
                           translations := some [("C", "")] } } :=
  merge_idempotent _ _ _ (by decide)

/-- Claim C4: post-merge normalization — a catalog to which the merge adds
at least one key ends up with its whole translations mapping in
lexicographic order by key (all keys, not only the new ones). -/
theorem merge_resorts_catalog (files : List YamlFile) (ks : List String)
    (i : Nat) (hi : i < files.length)
    (hi2 : i < (merge_new_keys files ks false).1.length)
    (hmod : 0 < (mergeFile ks (files.get ⟨i, hi⟩)).2) :
    List.Sorted (fun a b : String × String => a.1 ≤ b.1)
      (fileTranslations ((merge_new_keys files ks false).1.get ⟨i, hi2⟩)) := by
  rw [merge_new_keys_get files ks false i hi hi2]
  simp only [Bool.false_eq_true, if_false]
  exact mergeFile_sorted ks hmod

/-- Witness for C4: a file whose pre-merge keys are out of order. -/
theorem merge_resorts_catalog_witness :
    List.Sorted (fun a b : String × String => a.1 ≤ b.1)
      (fileTranslations ((merge_new_keys
        [{ stem := "en",
           parsed := some { locale := some "en",
                            translations := some [("B", "B"), ("A", "A")] } }]
        ["C"] false).1.get ⟨0, by decide⟩)) :=
  merge_resorts_catalog _ _ 0 (by decide) (by decide) (by decide)


/-! ## Lemmas on coverage -/

theorem pyTruthy_eq_strip (v : String) : pyTruthy v = !(pyStrip v).isEmpty := by
  by_cases h : v = ""
  · subst h
    decide
  · have hb : (v == "") = false := beq_eq_false_iff_ne.mpr h
    simp [pyTruthy, hb]

theorem pyRound1_hundred : pyRound1 100 = 100 := by
  unfold pyRound1
  rw [show ((100 : ℚ) * 10) = ((1000 : ℤ) : ℚ) by norm_num, round_intCast]
  norm_num

theorem ifIsEmpty_length (T : List (String × String)) :
    (if T.isEmpty then (0 : ℤ) else (T.length : ℤ)) = (T.length : ℤ) := by
  cases T <;> simp

theorem calculate_coverage_get (files : List YamlFile) (bl : String)
    (bf : YamlFile) (hbf : baseFileOf files bl = some bf)
    (i : Nat) (hi : i < files.length)
    (hi2 : i < (calculate_coverage files bl).length) :
    (calculate_coverage files bl).get ⟨i, hi2⟩
      = coverageEntry (fileTranslations bf) bl (files.get ⟨i, hi⟩) := by
  simp only [calculate_coverage, hbf, List.get_eq_getElem]
  exact List.getElem_map _

theorem baseFileOf_of_coverage_ne_nil {files : List YamlFile} {bl : String}
    (h : calculate_coverage files bl ≠ []) :
    ∃ bf, baseFileOf files bl = some bf := by
  cases hb : baseFileOf files bl with
  | none =>
      exfalso
      apply h
      simp [calculate_coverage, hb]
  | some bf => exact ⟨bf, rfl⟩

theorem coverageEntry_total (T : List (String × String)) (bl : String)
    (f : YamlFile) : (coverageEntry T bl f).2.total = (T.length : ℤ) := by
  by_cases h : fileLocale f = bl
  · simp only [coverageEntry, if_pos h]
    exact ifIsEmpty_length T
  · simp only [coverageEntry, if_neg h]
    exact ifIsEmpty_length T

theorem coverageEntry_base (T : List (String × String)) (bl : String)
    (f : YamlFile) (h : fileLocale f = bl) :
    (coverageEntry T bl f).2
      = { total := (T.length : ℤ), translated := (T.length : ℤ),
          missing := 0, percentage := 100 } := by
  simp only [coverageEntry, if_pos h, ifIsEmpty_length]



/-- Claim C5: coverage formula — the base-locale entry has
translated = total and percentage exactly 100 without inspecting values;
every other locale's entry counts the base keys whose value is non-empty
after stripping, missing = total − translated, and percentage is
round(translated/total×100, 1), or 100 when total = 0. -/
theorem coverage_formula (files : List YamlFile) (base_locale : String)
    (i : Nat) (hi : i < files.length)
    (hi2 : i < (calculate_coverage files base_locale).length) :
    ∃ bf, baseFileOf files base_locale = some bf ∧
      (((calculate_coverage files base_locale).get ⟨i, hi2⟩).2.total
          = ((fileTranslations bf).length : ℤ)) ∧
      (fileLocale (files.get ⟨i, hi⟩) = base_locale →
        ((calculate_coverage files base_locale).get ⟨i, hi2⟩).2
          = { total := ((fileTranslations bf).length : ℤ),
              translated := ((fileTranslations bf).length : ℤ),
              missing := 0, percentage := 100 }) ∧
      (fileLocale (files.get ⟨i, hi⟩) ≠ base_locale →
        (((calculate_coverage files base_locale).get ⟨i, hi2⟩).2.translated
            = ((((fileTranslations bf).map Prod.fst).filter
                (fun k => !(pyStrip ((lookup
                  (fileTranslations (files.get ⟨i, hi⟩)) k).getD "")).isEmpty)).length : ℤ)) ∧
        (((calculate_coverage files base_locale).get ⟨i, hi2⟩).2.missing
            = ((fileTranslations bf).length : ℤ)
              - ((calculate_coverage files base_locale).get ⟨i, hi2⟩).2.translated) ∧
        (((calculate_coverage files base_locale).get ⟨i, hi2⟩).2.percentage
            = if ((fileTranslations bf).length : ℤ) = 0 then (100 : ℚ)
              else pyRound1
                ((((calculate_coverage files base_locale).get
                    ⟨i, hi2⟩).2.translated : ℚ)
                  / (((fileTranslations bf).length : ℤ) : ℚ) * 100))) := by
  have hne : calculate_coverage files base_locale ≠ [] :=
    List.ne_nil_of_length_pos (lt_of_le_of_lt (Nat.zero_le i) hi2)
  obtain ⟨bf, hbf⟩ := baseFileOf_of_coverage_ne_nil hne
  rw [calculate_coverage_get files base_locale bf hbf i hi hi2]
  set T := fileTranslations bf with hT
  set f := files.get ⟨i, hi⟩ with hf
  refine ⟨bf, hbf, ?_, ?_, ?_⟩
  · exact coverageEntry_total T base_locale f
  · intro h
    exact coverageEntry_base T base_locale f h
  · intro h
    have htr : (if (fileTranslations f).isEmpty then (0 : ℤ)
        else ((T.map Prod.fst).filter
          (fun k => pyTruthy ((lookup (fileTranslations f) k).getD ""))).length)
        = (((T.map Prod.fst).filter
            (fun k => !(pyStrip ((lookup (fileTranslations f) k).getD "")).isEmpty)).length : ℤ) := by
      by_cases hts : (fileTranslations f).isEmpty
      · have hnil : fileTranslations f = [] := by
          cases hcase : fileTranslations f
          · rfl
          · rw [hcase] at hts
            simp at hts
        rw [if_pos hts, hnil]
        have hconst : ∀ k : String,
            (!(pyStrip ((lookup ([] : List (String × String)) k).getD
                "")).isEmpty) = false := fun k => rfl
        have hfil : ((T.map Prod.fst).filter
            (fun k => !(pyStrip ((lookup ([] : List (String × String))
                k).getD "")).isEmpty)) = [] := by
          rw [List.filter_eq_nil_iff]
          intro k hk
          rw [hconst k]
          simp
        rw [hfil]
        rfl
      · rw [if_neg hts]
        have hcg : List.filter
            (fun k => pyTruthy ((lookup (fileTranslations f) k).getD ""))
            (T.map Prod.fst)
          = List.filter
            (fun k => !(pyStrip ((lookup
                (fileTranslations f) k).getD "")).isEmpty)
            (T.map Prod.fst) :=
          List.filter_congr (fun k _hk => pyTruthy_eq_strip _)
        rw [hcg]
    constructor
    · simp only [coverageEntry, if_neg h]
      exact htr
    constructor
    · simp only [coverageEntry, if_neg h, ifIsEmpty_length]
    · simp only [coverageEntry, if_neg h, ifIsEmpty_length]
      by_cases h0 : (T.length : ℤ) = 0
      · rw [if_pos h0, if_neg (by omega)]
        exact pyRound1_hundred
      · rw [if_neg h0, if_pos (by omega)]



/-- Witness for C5: a two-file directory, the non-base entry of "de". -/
theorem coverage_formula_witness :
    ∃ bf, baseFileOf [sampleEn, sampleDe] "en" = some bf ∧
      (((calculate_coverage [sampleEn, sampleDe] "en").get
          ⟨1, by decide⟩).2.total = ((fileTranslations bf).length : ℤ)) ∧
      (fileLocale ([sampleEn, sampleDe].get ⟨1, by decide⟩) = "en" →
        ((calculate_coverage [sampleEn, sampleDe] "en").get ⟨1, by decide⟩).2
          = { total := ((fileTranslations bf).length : ℤ),
              translated := ((fileTranslations bf).length : ℤ),
              missing := 0, percentage := 100 }) ∧
      (fileLocale ([sampleEn, sampleDe].get ⟨1, by decide⟩) ≠ "en" →
        (((calculate_coverage [sampleEn, sampleDe] "en").get
            ⟨1, by decide⟩).2.translated
            = ((((fileTranslations bf).map Prod.fst).filter
                (fun k => !(pyStrip ((lookup
                  (fileTranslations ([sampleEn, sampleDe].get
                    ⟨1, by decide⟩)) k).getD "")).isEmpty)).length : ℤ)) ∧
        (((calculate_coverage [sampleEn, sampleDe] "en").get
            ⟨1, by decide⟩).2.missing
            = ((fileTranslations bf).length : ℤ)
              - ((calculate_coverage [sampleEn, sampleDe] "en").get
                  ⟨1, by decide⟩).2.translated) ∧
        (((calculate_coverage [sampleEn, sampleDe] "en").get
            ⟨1, by decide⟩).2.percentage
            = if ((fileTranslations bf).length : ℤ) = 0 then (100 : ℚ)
              else pyRound1
                ((((calculate_coverage [sampleEn, sampleDe] "en").get
                    ⟨1, by decide⟩).2.translated : ℚ)
                  / (((fileTranslations bf).length : ℤ) : ℚ) * 100))) :=
  coverage_formula [sampleEn, sampleDe] "en" 1 (by decide) (by decide)



/-! ## Lemmas on obsolete-key detection -/

/-- The `used_strings` union of `find_obsolete_keys` (obsolete.py lines
29-35): the markup scan's strings plus, when a C++ directory was supplied
and exists, the C++ scan's strings. -/
def usedStringsOf (xmlStrings : List String)
    (cppStrings : Option (List String)) : List String :=
  match cppStrings with
  | some cs => xmlStrings ++ cs
  | none => xmlStrings

/-- The base catalog's key set as `find_obsolete_keys` sees it: empty when
the base file is missing. -/
def baseCatalogKeys (files : List YamlFile) (base_locale : String) :
    List String :=
  match files.find? (fun f => f.stem == base_locale) with
  | none => []
  | some bf => (fileTranslations bf).map Prod.fst

/-- Claim C6: obsolete characterization — a key is in the result of
`find_obsolete_keys` iff it is a base-catalog key and not among the used
strings (the union of the markup scan and, when supplied, the C++ scan);
hence the result is disjoint from the used strings, and a key that is not
in the base catalog (for instance one present only in non-base catalogs)
is never reported. -/
theorem obsolete_characterization (xmlStrings : List String)
    (cppStrings : Option (List String)) (files : List YamlFile)
    (base_locale : String) (k : String) :
    (k ∈ find_obsolete_keys xmlStrings cppStrings files base_locale ↔
      (k ∈ baseCatalogKeys files base_locale ∧
       ¬ k ∈ usedStringsOf xmlStrings cppStrings))
    ∧ (k ∈ find_obsolete_keys xmlStrings cppStrings files base_locale →
        ¬ k ∈ usedStringsOf xmlStrings cppStrings)
    ∧ (¬ k ∈ baseCatalogKeys files base_locale →
        ¬ k ∈ find_obsolete_keys xmlStrings cppStrings files base_locale) := by
  have hmain : k ∈ find_obsolete_keys xmlStrings cppStrings files base_locale ↔
      (k ∈ baseCatalogKeys files base_locale ∧
       ¬ k ∈ usedStringsOf xmlStrings cppStrings) := by
    unfold find_obsolete_keys baseCatalogKeys usedStringsOf
    cases hb : files.find? (fun f => f.stem == base_locale) with
    | none =>
        cases cppStrings <;> simp
    | some bf =>
        by_cases he : (fileTranslations bf).isEmpty
        · have hnil : fileTranslations bf = [] := by
            cases hcase : fileTranslations bf
            · rfl
            · rw [hcase] at he
              simp at he
          cases cppStrings <;> simp [he, hnil]
        · cases cppStrings <;>
            simp [he, List.mem_filter, List.elem_iff, List.contains]
  refine ⟨hmain, fun h => (hmain.mp h).2, fun h h2 => h (hmain.mp h2).1⟩

/-- Claim C10: if the base-locale catalog file does not exist, or its
translations mapping is absent, null or empty, `find_obsolete_keys`
returns the empty set whatever the used strings are. -/
theorem obsolete_empty_without_base (xmlStrings : List String)
    (cppStrings : Option (List String)) (files : List YamlFile)
    (base_locale : String)
    (h : files.find? (fun f => f.stem == base_locale) = none ∨
         ∃ bf, files.find? (fun f => f.stem == base_locale) = some bf ∧
               fileTranslations bf = []) :
    find_obsolete_keys xmlStrings cppStrings files base_locale = [] := by
  rcases h with h | ⟨bf, hbf, hnil⟩
  · unfold find_obsolete_keys
    rw [h]
  · unfold find_obsolete_keys
    rw [hbf]
    simp [hnil]

/-- Witness for C10: a directory whose only file is not the base locale. -/
theorem obsolete_empty_without_base_witness :
    find_obsolete_keys ["Used"] none [sampleDe] "en" = [] :=
  obsolete_empty_without_base ["Used"] none [sampleDe] "en"
    (Or.inl (by decide))



/-! ## Lemmas on obsolete-key marking -/

theorem marker_startsWith (v : String) :
    pyStartswith ("[DEPRECATED] " ++ v) "[DEPRECATED]" = true := by
  unfold pyStartswith
  rw [List.isPrefixOf_iff_prefix, String.data_append]
  have h : ("[DEPRECATED] " : String).data
      = ("[DEPRECATED]" : String).data ++ (" " : String).data := by decide
  rw [h, List.append_assoc]
  exact List.prefix_append _ _

theorem lookup_cons_self {p : String × String}
    {rest : List (String × String)} {k : String} (h : p.1 = k) :
    lookup (p :: rest) k = some p.2 := by
  unfold lookup
  rw [@List.find?_cons_of_pos _ (fun q => q.1 == k) p rest
    (beq_iff_eq.mpr h)]
  rfl

theorem lookup_cons_ne {p : String × String}
    {rest : List (String × String)} {k : String} (h : p.1 ≠ k) :
    lookup (p :: rest) k = lookup rest k := by
  unfold lookup
  rw [@List.find?_cons_of_neg _ (fun q => q.1 == k) p rest (by simp [h])]

theorem setKey_map_fst (k v : String) (ts : List (String × String)) :
    (setKey ts k v).map Prod.fst = ts.map Prod.fst := by
  unfold setKey
  rw [List.map_map]
  refine List.map_congr_left ?_
  intro p _hp
  by_cases h : p.1 = k <;> simp [h]

theorem setKey_lookup_self (ts : List (String × String)) (k v : String) :
    lookup (setKey ts k v) k = (lookup ts k).map (fun _ => v) := by
  induction ts with
  | nil => rfl
  | cons p rest ih =>
      unfold setKey at ih ⊢
      rw [List.map_cons]
      by_cases h : p.1 = k
      · simp only [if_pos h]
        rw [@lookup_cons_self (p.1, v) _ k h, lookup_cons_self h]
        rfl
      · simp only [if_neg h]
        rw [@lookup_cons_ne p _ k h, lookup_cons_ne h]
        exact ih

theorem setKey_lookup_other (ts : List (String × String)) (k v k2 : String)
    (hne : k2 ≠ k) : lookup (setKey ts k v) k2 = lookup ts k2 := by
  induction ts with
  | nil => rfl
  | cons p rest ih =>
      unfold setKey at ih ⊢
      rw [List.map_cons]
      by_cases h : p.1 = k
      · have hp2 : p.1 ≠ k2 := fun hc => hne (hc ▸ h)
        simp only [if_pos h]
        rw [@lookup_cons_ne (p.1, v) _ k2 hp2, lookup_cons_ne hp2]
        exact ih
      · simp only [if_neg h]
        by_cases h2 : p.1 = k2
        · rw [lookup_cons_self h2, lookup_cons_self h2]
        · rw [lookup_cons_ne h2, lookup_cons_ne h2]
          exact ih

theorem markStep_none {ts : List (String × String)} {n : Nat} {k : String}
    (h : lookup ts k = none) : markStep (ts, n) k = (ts, n) := by
  unfold markStep
  rw [h]

theorem markStep_marked {ts : List (String × String)} {n : Nat}
    {k v : String} (h : lookup ts k = some v)
    (hm : pyStartswith v "[DEPRECATED]" = true) :
    markStep (ts, n) k = (ts, n) := by
  unfold markStep
  rw [h]
  simp [hm]

theorem markStep_unmarked {ts : List (String × String)} {n : Nat}
    {k v : String} (h : lookup ts k = some v)
    (hm : pyStartswith v "[DEPRECATED]" = false) :
    markStep (ts, n) k = (setKey ts k ("[DEPRECATED] " ++ v), n + 1) := by
  unfold markStep
  rw [h]
  simp [hm]

theorem markFold_shift (obs : List String) :
    ∀ (ts : List (String × String)) (n : Nat),
      obs.foldl markStep (ts, n)
        = ((obs.foldl markStep (ts, 0)).1,
           n + (obs.foldl markStep (ts, 0)).2) := by
  induction obs with
  | nil => intro ts n; simp
  | cons k rest ih =>
      intro ts n
      simp only [List.foldl_cons]
      cases hl : lookup ts k with
      | none => rw [markStep_none hl, markStep_none hl]; exact ih ts n
      | some v =>
          cases hm : pyStartswith v "[DEPRECATED]" with
          | true =>
              rw [markStep_marked hl hm, markStep_marked hl hm]
              exact ih ts n
          | false =>
              rw [markStep_unmarked hl hm, markStep_unmarked hl hm]
              rw [ih _ (n + 1), ih _ (0 + 1)]
              refine Prod.ext rfl ?_
              simp
              omega

theorem markTranslations_cons (k : String) (obs : List String)
    (ts : List (String × String)) :
    markTranslations (k :: obs) ts
      = match lookup ts k with
        | none => markTranslations obs ts
        | some v =>
            if pyStartswith v "[DEPRECATED]" then markTranslations obs ts
            else ((markTranslations obs
                    (setKey ts k ("[DEPRECATED] " ++ v))).1,
                  (markTranslations obs
                    (setKey ts k ("[DEPRECATED] " ++ v))).2 + 1) := by
  unfold markTranslations
  simp only [List.foldl_cons]
  cases hl : lookup ts k with
  | none => rw [markStep_none hl]
  | some v =>
      cases hm : pyStartswith v "[DEPRECATED]" with
      | true => rw [markStep_marked hl hm]; simp [hm]
      | false =>
          rw [markStep_unmarked hl hm]
          simp only [hm, if_false, Bool.false_eq_true]
          rw [markFold_shift]
          refine Prod.ext rfl ?_
          simp
          omega

theorem markTranslations_map_fst (obs : List String) :
    ∀ ts : List (String × String),
      ((markTranslations obs ts).1).map Prod.fst = ts.map Prod.fst := by
  induction obs with
  | nil => intro ts; rfl
  | cons k rest ih =>
      intro ts
      rw [markTranslations_cons]
      cases hl : lookup ts k with
      | none => exact ih ts
      | some v =>
          cases hm : pyStartswith v "[DEPRECATED]" with
          | true => simp only [hm, if_true]; exact ih ts
          | false =>
              simp only [hm, if_false, Bool.false_eq_true]
              rw [ih _, setKey_map_fst]



theorem markTranslations_cons_none {j : String} {obs : List String}
    {ts : List (String × String)} (h : lookup ts j = none) :
    markTranslations (j :: obs) ts = markTranslations obs ts := by
  rw [markTranslations_cons, h]

theorem markTranslations_cons_marked {j : String} {obs : List String}
    {ts : List (String × String)} {v : String} (h : lookup ts j = some v)
    (hm : pyStartswith v "[DEPRECATED]" = true) :
    markTranslations (j :: obs) ts = markTranslations obs ts := by
  rw [markTranslations_cons, h]
  simp only [hm, if_true]

theorem markTranslations_cons_unmarked {j : String} {obs : List String}
    {ts : List (String × String)} {v : String} (h : lookup ts j = some v)
    (hm : pyStartswith v "[DEPRECATED]" = false) :
    markTranslations (j :: obs) ts
      = ((markTranslations obs (setKey ts j ("[DEPRECATED] " ++ v))).1,
         (markTranslations obs (setKey ts j ("[DEPRECATED] " ++ v))).2 + 1) := by
  rw [markTranslations_cons, h]
  simp only [hm, Bool.false_eq_true, if_false]

theorem markTranslations_preserves_marked (obs : List String) :
    ∀ (ts : List (String × String)) (k v : String),
      lookup ts k = some v → pyStartswith v "[DEPRECATED]" = true →
      lookup (markTranslations obs ts).1 k = some v := by
  induction obs with
  | nil => intro ts k v hv _; exact hv
  | cons j rest ih =>
      intro ts k v hv hm
      cases hl : lookup ts j with
      | none =>
          rw [markTranslations_cons_none hl]
          exact ih ts k v hv hm
      | some w =>
          cases hmw : pyStartswith w "[DEPRECATED]" with
          | true =>
              rw [markTranslations_cons_marked hl hmw]
              exact ih ts k v hv hm
          | false =>
              rw [markTranslations_cons_unmarked hl hmw]
              by_cases hjk : k = j
              · subst hjk
                rw [hl] at hv
                cases hv
                rw [hmw] at hm
                cases hm
              · refine ih _ k v ?_ hm
                rw [setKey_lookup_other _ _ _ _ hjk]
                exact hv

theorem markTranslations_lookup (obs : List String) :
    ∀ (ts : List (String × String)) (k v : String), k ∈ obs →
      lookup ts k = some v →
      lookup (markTranslations obs ts).1 k
        = some (if pyStartswith v "[DEPRECATED]" then v
                else "[DEPRECATED] " ++ v) := by
  induction obs with
  | nil => intro ts k v hmem _; exact absurd hmem (List.not_mem_nil k)
  | cons j rest ih =>
      intro ts k v hmem hv
      by_cases hjk : k = j
      · subst hjk
        cases hm : pyStartswith v "[DEPRECATED]" with
        | true =>
            rw [markTranslations_cons_marked hv hm]
            simp only [if_true]
            exact markTranslations_preserves_marked rest ts k v hv hm
        | false =>
            rw [markTranslations_cons_unmarked hv hm]
            simp only [Bool.false_eq_true, if_false]
            have hset : lookup (setKey ts k ("[DEPRECATED] " ++ v)) k
                = some ("[DEPRECATED] " ++ v) := by
              rw [setKey_lookup_self, hv]
              rfl
            exact markTranslations_preserves_marked rest _ k _ hset
              (marker_startsWith v)
      · have hmem2 : k ∈ rest := by
          rcases List.mem_cons.mp hmem with h3 | h3
          · exact absurd h3 hjk
          · exact h3
        cases hl : lookup ts j with
        | none =>
            rw [markTranslations_cons_none hl]
            exact ih ts k v hmem2 hv
        | some w =>
            cases hmw : pyStartswith w "[DEPRECATED]" with
            | true =>
                rw [markTranslations_cons_marked hl hmw]
                exact ih ts k v hmem2 hv
            | false =>
                rw [markTranslations_cons_unmarked hl hmw]
                refine ih _ k v hmem2 ?_
                rw [setKey_lookup_other _ _ _ _ hjk]
                exact hv

theorem markTranslations_all_marked (obs : List String)
    (ts : List (String × String)) (k : String) (hmem : k ∈ obs) :
    ∀ v, lookup (markTranslations obs ts).1 k = some v →
      pyStartswith v "[DEPRECATED]" = true := by
  intro v hv
  cases hl : lookup ts k with
  | none =>
      exfalso
      have h1 : ¬ hasKey ts k := lookup_eq_none.mp hl
      have h2 : ¬ hasKey (markTranslations obs ts).1 k := by
        unfold hasKey at h1 ⊢
        rw [markTranslations_map_fst]
        exact h1
      rw [lookup_eq_none.mpr h2] at hv
      cases hv
  | some w =>
      rw [markTranslations_lookup obs ts k w hmem hl] at hv
      cases hmw : pyStartswith w "[DEPRECATED]" with
      | true =>
          rw [hmw] at hv
          simp at hv
          rw [← hv]
          exact hmw
      | false =>
          rw [hmw] at hv
          simp at hv
          rw [← hv]
          exact marker_startsWith w

theorem markTranslations_nochange (obs : List String)
    (ts : List (String × String))
    (h : ∀ k ∈ obs, ∀ v, lookup ts k = some v →
          pyStartswith v "[DEPRECATED]" = true) :
    markTranslations obs ts = (ts, 0) := by
  induction obs with
  | nil => rfl
  | cons j rest ih =>
      cases hl : lookup ts j with
      | none =>
          rw [markTranslations_cons_none hl]
          exact ih (fun k hk => h k (List.mem_cons_of_mem _ hk))
      | some w =>
          have hmw := h j (List.mem_cons_self j rest) w hl
          rw [markTranslations_cons_marked hl hmw]
          exact ih (fun k hk => h k (List.mem_cons_of_mem _ hk))

theorem markTranslations_count_zero (obs : List String) :
    ∀ ts : List (String × String), (markTranslations obs ts).2 = 0 →
      ∀ k ∈ obs, ∀ v, lookup ts k = some v →
        pyStartswith v "[DEPRECATED]" = true := by
  induction obs with
  | nil => intro ts _ k hk; exact absurd hk (List.not_mem_nil k)
  | cons j rest ih =>
      intro ts hz k hk v hv
      cases hl : lookup ts j with
      | none =>
          rw [markTranslations_cons_none hl] at hz
          rcases List.mem_cons.mp hk with rfl | hk2
          · rw [hl] at hv
            cases hv
          · exact ih ts hz k hk2 v hv
      | some w =>
          cases hmw : pyStartswith w "[DEPRECATED]" with
          | true =>
              rw [markTranslations_cons_marked hl hmw] at hz
              rcases List.mem_cons.mp hk with rfl | hk2
              · rw [hl] at hv
                cases hv
                exact hmw
              · exact ih ts hz k hk2 v hv
          | false =>
              rw [markTranslations_cons_unmarked hl hmw] at hz
              simp at hz



theorem markTranslations_count (obs : List String) :
    ∀ ts : List (String × String), obs.Nodup →
      (markTranslations obs ts).2 = obs.countP (needsMark ts) := by
  induction obs with
  | nil => intro ts _; rfl
  | cons j rest ih =>
      intro ts hnd
      rw [List.nodup_cons] at hnd
      obtain ⟨hjn, hnd⟩ := hnd
      cases hl : lookup ts j with
      | none =>
          rw [markTranslations_cons_none hl, List.countP_cons, ih ts hnd]
          have hj : needsMark ts j = false := by
            unfold needsMark
            rw [hl]
          rw [hj]
          simp
      | some w =>
          cases hmw : pyStartswith w "[DEPRECATED]" with
          | true =>
              rw [markTranslations_cons_marked hl hmw, List.countP_cons,
                ih ts hnd]
              have hj : needsMark ts j = false := by
                unfold needsMark
                rw [hl]
                show (!pyStartswith w "[DEPRECATED]") = false
                rw [hmw]
                rfl
              rw [hj]
              simp
          | false =>
              rw [markTranslations_cons_unmarked hl hmw, List.countP_cons,
                ih _ hnd]
              have hj : needsMark ts j = true := by
                unfold needsMark
                rw [hl]
                show (!pyStartswith w "[DEPRECATED]") = true
                rw [hmw]
                rfl
              have hcong : ∀ k ∈ rest,
                  (needsMark (setKey ts j ("[DEPRECATED] " ++ w)) k = true)
                    ↔ (needsMark ts k = true) := by
                intro k hk2
                have hkj : k ≠ j := fun hc => hjn (hc ▸ hk2)
                unfold needsMark
                rw [setKey_lookup_other _ _ _ _ hkj]
              rw [List.countP_congr hcong, hj]
              simp

theorem markFile_snd (obs : List String) (dr : Bool) (f : YamlFile) :
    (markFile obs dr f).2
      = if (fileTranslations f).isEmpty then 0
        else (markTranslations obs (fileTranslations f)).2 := by
  simp only [markFile, fileTranslations]
  split
  · rfl
  · split <;> rfl

theorem markFile_fst_zero (obs : List String) (dr : Bool) (f : YamlFile)
    (h : (markFile obs dr f).2 = 0) : (markFile obs dr f).1 = f := by
  rw [markFile_snd] at h
  simp only [fileTranslations] at h
  simp only [markFile]
  by_cases he : (((load_yaml_file f.parsed).translations.getD
      []).isEmpty : Bool) = true
  · rw [if_pos he]
  · rw [if_neg he]
    rw [if_neg he] at h
    rw [h]
    simp

theorem fileTranslations_eq (f : YamlFile) :
    (load_yaml_file f.parsed).translations.getD [] = fileTranslations f :=
  rfl

theorem markFile_translations_pos (obs : List String) (f : YamlFile)
    (hpos : 0 < (markFile obs false f).2) :
    fileTranslations (markFile obs false f).1
      = (markTranslations obs (fileTranslations f)).1 := by
  rw [markFile_snd] at hpos
  simp only [markFile, fileTranslations_eq]
  by_cases he : ((fileTranslations f).isEmpty) = true
  · rw [if_pos he] at hpos
    cases hpos
  · rw [if_neg he] at hpos
    rw [if_neg he]
    have hc : (decide (0 < (markTranslations obs (fileTranslations f)).2)
        && !false) = true := by
      simp only [Bool.not_false, Bool.and_true, decide_eq_true_eq]
      exact hpos
    rw [if_pos hc]
    rfl



theorem markFile_lookup (obs : List String) (f : YamlFile) {k v : String}
    (hk : k ∈ obs) (hv : lookup (fileTranslations f) k = some v) :
    lookup (fileTranslations (markFile obs false f).1) k
      = some (if pyStartswith v "[DEPRECATED]" then v
              else "[DEPRECATED] " ++ v) := by
  rcases Nat.eq_zero_or_pos (markFile obs false f).2 with h0 | h0
  · rw [markFile_fst_zero obs false f h0]
    rw [markFile_snd] at h0
    by_cases he : ((fileTranslations f).isEmpty) = true
    · exfalso
      have hnil : fileTranslations f = [] := by
        cases hcase : fileTranslations f
        · rfl
        · rw [hcase] at he
          simp at he
      rw [hnil] at hv
      cases hv
    · rw [if_neg he] at h0
      have hmarked := markTranslations_count_zero obs (fileTranslations f)
        h0 k hk v hv
      rw [hv, if_pos hmarked]
  · rw [markFile_translations_pos obs f h0]
    exact markTranslations_lookup obs (fileTranslations f) k v hk hv

theorem markTranslations_nonempty (obs : List String)
    (ts : List (String × String)) (h : ts.isEmpty = false) :
    ((markTranslations obs ts).1).isEmpty = false := by
  have hfst := markTranslations_map_fst obs ts
  have hlen : (markTranslations obs ts).1.length = ts.length := by
    have := congrArg List.length hfst
    simpa using this
  cases hcase : (markTranslations obs ts).1 with
  | nil =>
      rw [hcase] at hlen
      cases hts : ts with
      | nil => rw [hts] at h; cases h
      | cons a l => rw [hts] at hlen; simp at hlen
  | cons a l => rfl

theorem markFile_idempotent (obs : List String) (f : YamlFile) :
    markFile obs false (markFile obs false f).1
      = ((markFile obs false f).1, 0) := by
  rcases Nat.eq_zero_or_pos (markFile obs false f).2 with h0 | h0
  · have hf := markFile_fst_zero obs false f h0
    rw [hf]
    rw [markFile_snd] at h0
    by_cases he : ((fileTranslations f).isEmpty) = true
    · refine Prod.ext ?_ ?_
      · exact markFile_fst_zero obs false f (by rw [markFile_snd, if_pos he])
      · rw [markFile_snd, if_pos he]
    · rw [if_neg he] at h0
      refine Prod.ext ?_ ?_
      · exact markFile_fst_zero obs false f
          (by rw [markFile_snd, if_neg he]; exact h0)
      · rw [markFile_snd, if_neg he]
        exact h0
  · have htr := markFile_translations_pos obs f h0
    have hall : ∀ k ∈ obs, ∀ v,
        lookup (fileTranslations (markFile obs false f).1) k = some v →
        pyStartswith v "[DEPRECATED]" = true := by
      intro k hk v hv
      rw [htr] at hv
      exact markTranslations_all_marked obs (fileTranslations f) k hk v hv
    have hnoop := markTranslations_nochange obs
      (fileTranslations (markFile obs false f).1) hall
    have hsnd : (markFile obs false (markFile obs false f).1).2 = 0 := by
      rw [markFile_snd]
      by_cases he : ((fileTranslations (markFile obs false f).1).isEmpty)
          = true
      · rw [if_pos he]
      · rw [if_neg he, hnoop]
    exact Prod.ext (markFile_fst_zero obs false _ hsnd) hsnd

theorem mark_obsolete_keys_get (files : List YamlFile) (obs : List String)
    (i : Nat) (hi : i < files.length)
    (hi2 : i < (mark_obsolete_keys files obs false).1.length) :
    (mark_obsolete_keys files obs false).1.get ⟨i, hi2⟩
      = if obs.isEmpty then files.get ⟨i, hi⟩
        else (markFile obs false (files.get ⟨i, hi⟩)).1 := by
  by_cases ho : (obs.isEmpty : Bool) = true
  · have hnil : obs = [] := by
      cases hcase : obs
      · rfl
      · rw [hcase] at ho; simp at ho
    subst hnil
    simp [mark_obsolete_keys, List.get_eq_getElem]
  · have hne : ¬ obs = [] := by
      intro hc
      rw [hc] at ho
      exact ho rfl
    simp [mark_obsolete_keys, List.get_eq_getElem, List.getElem_map, hne]

theorem mark_dir_idempotent (files : List YamlFile) (obs : List String) :
    mark_obsolete_keys (mark_obsolete_keys files obs false).1 obs false
      = ((mark_obsolete_keys files obs false).1, 0) := by
  by_cases ho : (obs.isEmpty : Bool) = true
  · simp only [mark_obsolete_keys, if_pos ho]
  · have hout : (mark_obsolete_keys files obs false).1
        = files.map (fun f => (markFile obs false f).1) := by
      simp only [mark_obsolete_keys, if_neg ho]
    have hkey : ∀ g ∈ (mark_obsolete_keys files obs false).1,
        markFile obs false g = (g, 0) := by
      intro g hg
      rw [hout] at hg
      obtain ⟨f2, _hf2, hge⟩ := List.mem_map.mp hg
      rw [← hge]
      exact markFile_idempotent obs f2
    obtain ⟨L, hL⟩ : ∃ L, (mark_obsolete_keys files obs false).1 = L :=
      ⟨_, rfl⟩
    rw [hL] at hkey ⊢
    simp only [mark_obsolete_keys, if_neg ho]
    refine Prod.ext ?_ ?_
    · show L.map (fun f => (markFile obs false f).1) = L
      have hcong : ∀ g ∈ L, (markFile obs false g).1 = id g := by
        intro g hg
        rw [hkey g hg]
        rfl
      rw [List.map_congr_left hcong, List.map_id]
    · show (L.map (fun f => (markFile obs false f).2)).sum = 0
      refine List.sum_eq_zero ?_
      intro x hx
      obtain ⟨g, hg, hge⟩ := List.mem_map.mp hx
      rw [← hge, hkey g hg]

theorem mark_obsolete_keys_count (files : List YamlFile)
    (obs : List String) (hobs : obs.Nodup) :
    (mark_obsolete_keys files obs false).2
      = (files.map (fun f =>
          obs.countP (needsMark (fileTranslations f)))).sum := by
  by_cases ho : (obs.isEmpty : Bool) = true
  · have hobs_nil : obs = [] := by
      cases hcase : obs
      · rfl
      · rw [hcase] at ho; simp at ho
    subst hobs_nil
    simp only [mark_obsolete_keys, if_pos ho]
    symm
    refine List.sum_eq_zero ?_
    intro x hx
    obtain ⟨g, _hg, hge⟩ := List.mem_map.mp hx
    rw [← hge]
    rfl
  · simp only [mark_obsolete_keys, if_neg ho]
    refine congrArg List.sum ?_
    refine List.map_congr_left ?_
    intro f _hf
    rw [markFile_snd]
    by_cases he : ((fileTranslations f).isEmpty) = true
    · rw [if_pos he]
      have hnil : fileTranslations f = [] := by
        cases hcase : fileTranslations f
        · rfl
        · rw [hcase] at he; simp at he
      symm
      refine List.countP_eq_zero.mpr ?_
      intro k _hk
      unfold needsMark
      rw [hnil]
      show (match (none : Option String) with
        | some w => !pyStartswith w "[DEPRECATED]"
        | none => false) ≠ true
      simp
    · rw [if_neg he]
      exact markTranslations_count obs (fileTranslations f) hobs



/-- Claim C7: mark is idempotent — for every catalog of the directory and
every obsolete key present in it, `mark_obsolete_keys` prefixes the key's
value with the deprecation marker plus a space unless the value already
starts with the marker (so a value is never double-prefixed); it returns
the number of (catalog, key) pairs newly marked; and a second run on the
result changes nothing and marks nothing. -/
theorem mark_idempotent (files : List YamlFile) (obs : List String)
    (i : Nat) (k v : String)
    (hobs : obs.Nodup)
    (hi : i < files.length)
    (hi2 : i < (mark_obsolete_keys files obs false).1.length)
    (hk : k ∈ obs)
    (hv : lookup (fileTranslations (files.get ⟨i, hi⟩)) k = some v) :
    (lookup (fileTranslations
        ((mark_obsolete_keys files obs false).1.get ⟨i, hi2⟩)) k
      = some (if pyStartswith v "[DEPRECATED]" then v
              else "[DEPRECATED] " ++ v))
    ∧ (mark_obsolete_keys files obs false).2
        = (files.map (fun f =>
            obs.countP (needsMark (fileTranslations f)))).sum
    ∧ mark_obsolete_keys (mark_obsolete_keys files obs false).1 obs false
        = ((mark_obsolete_keys files obs false).1, 0) := by
  refine ⟨?_, mark_obsolete_keys_count files obs hobs,
    mark_dir_idempotent files obs⟩
  rw [mark_obsolete_keys_get files obs i hi hi2]
  have ho : (obs.isEmpty : Bool) ≠ true := by
    intro hc
    have : obs = [] := by
      cases hcase : obs
      · rfl
      · rw [hcase] at hc; simp at hc
    rw [this] at hk
    exact absurd hk (List.not_mem_nil k)
  rw [if_neg ho]
  exact markFile_lookup obs (files.get ⟨i, hi⟩) hk hv

/-- Witness for C7: marking key "B" (value "") in a small directory. -/
theorem mark_idempotent_witness :
    (lookup (fileTranslations
        ((mark_obsolete_keys [sampleEn, sampleDe] ["B"] false).1.get
          ⟨1, by decide⟩)) "B"
      = some (if pyStartswith "" "[DEPRECATED]" then ""
              else "[DEPRECATED] " ++ ""))
    ∧ (mark_obsolete_keys [sampleEn, sampleDe] ["B"] false).2
        = ([sampleEn, sampleDe].map (fun f =>
            ["B"].countP (needsMark (fileTranslations f)))).sum
    ∧ mark_obsolete_keys
        (mark_obsolete_keys [sampleEn, sampleDe] ["B"] false).1 ["B"] false
        = ((mark_obsolete_keys [sampleEn, sampleDe] ["B"] false).1, 0) :=
  mark_idempotent [sampleEn, sampleDe] ["B"] 1 "B" "" (by decide)
    (by decide) (by decide) (by decide) (by decide)



/-! ## Lemmas on obsolete-key deletion -/

theorem isEmpty_true_nil {ts : List (String × String)}
    (h : ts.isEmpty = true) : ts = [] := by
  cases hcase : ts
  · rfl
  · rw [hcase] at h; simp at h

theorem deleteFile_snd (obs : List String) (dr : Bool) (f : YamlFile) :
    (deleteFile obs dr f).2
      = ((fileTranslations f).filter (fun p => obs.contains p.1)).length := by
  simp only [deleteFile, fileTranslations_eq]
  by_cases he : ((fileTranslations f).isEmpty) = true
  · rw [if_pos he, isEmpty_true_nil he]
    rfl
  · rw [if_neg he]
    split <;> rfl

theorem deleteFile_translations (obs : List String) (f : YamlFile) :
    fileTranslations (deleteFile obs false f).1
      = (fileTranslations f).filter (fun p => !(obs.contains p.1)) := by
  simp only [deleteFile, fileTranslations_eq]
  by_cases he : ((fileTranslations f).isEmpty) = true
  · rw [if_pos he]
    rw [isEmpty_true_nil he]
    rfl
  · rw [if_neg he]
    by_cases hc : (decide (0 < ((fileTranslations f).filter
        (fun p => obs.contains p.1)).length) && !false) = true
    · rw [if_pos hc]
      rfl
    · rw [if_neg hc]
      have hlen : ((fileTranslations f).filter
          (fun p => obs.contains p.1)).length = 0 := by
        simp only [Bool.not_false, Bool.and_true,
          decide_eq_true_eq] at hc
        omega
      have hnil2 : (fileTranslations f).filter
          (fun p => obs.contains p.1) = [] :=
        List.length_eq_zero.mp hlen
      have hall := List.filter_eq_nil_iff.mp hnil2
      symm
      refine List.filter_eq_self.mpr ?_
      intro p hp
      have := hall p hp
      simp only [Bool.not_eq_true] at this ⊢
      rw [this]
      rfl

theorem delete_obsolete_keys_get (files : List YamlFile)
    (obs : List String) (i : Nat) (hi : i < files.length)
    (hi2 : i < (delete_obsolete_keys files obs false).1.length) :
    (delete_obsolete_keys files obs false).1.get ⟨i, hi2⟩
      = if obs.isEmpty then files.get ⟨i, hi⟩
        else (deleteFile obs false (files.get ⟨i, hi⟩)).1 := by
  by_cases ho : (obs.isEmpty : Bool) = true
  · have hnil : obs = [] := by
      cases hcase : obs
      · rfl
      · rw [hcase] at ho; simp at ho
    subst hnil
    simp [delete_obsolete_keys, List.get_eq_getElem]
  · have hne : ¬ obs = [] := by
      intro hc
      rw [hc] at ho
      exact ho rfl
    simp [delete_obsolete_keys, List.get_eq_getElem, List.getElem_map, hne]

theorem delete_obsolete_keys_count (files : List YamlFile)
    (obs : List String) :
    (delete_obsolete_keys files obs false).2
      = (files.map (fun f => ((fileTranslations f).filter
          (fun p => obs.contains p.1)).length)).sum := by
  by_cases ho : (obs.isEmpty : Bool) = true
  · have hnil : obs = [] := by
      cases hcase : obs
      · rfl
      · rw [hcase] at ho; simp at ho
    subst hnil
    simp only [delete_obsolete_keys]
    rw [if_pos ho]
    symm
    refine List.sum_eq_zero ?_
    intro x hx
    obtain ⟨g, _hg, hge⟩ := List.mem_map.mp hx
    rw [← hge]
    simp [List.contains]
  · simp only [delete_obsolete_keys, if_neg ho]
    refine congrArg List.sum ?_
    refine List.map_congr_left ?_
    intro f _hf
    exact deleteFile_snd obs false f



/-- Claim C8: delete completeness and frame — for every catalog of the
directory, `delete_obsolete_keys` leaves exactly the entries whose key is
not in the obsolete set, in their original order with their original
values; afterwards no targeted key remains in any catalog; and the return
value is the number of (catalog, key) pairs removed. -/
theorem delete_complete_frame (files : List YamlFile) (obs : List String)
    (i : Nat) (hi : i < files.length)
    (hi2 : i < (delete_obsolete_keys files obs false).1.length) :
    (fileTranslations ((delete_obsolete_keys files obs false).1.get
          ⟨i, hi2⟩)
        = (fileTranslations (files.get ⟨i, hi⟩)).filter
            (fun p => !(obs.contains p.1)))
    ∧ (∀ k ∈ obs, ¬ hasKey (fileTranslations
          ((delete_obsolete_keys files obs false).1.get ⟨i, hi2⟩)) k)
    ∧ (∀ p ∈ fileTranslations (files.get ⟨i, hi⟩), ¬ p.1 ∈ obs →
          p ∈ fileTranslations
            ((delete_obsolete_keys files obs false).1.get ⟨i, hi2⟩))
    ∧ (delete_obsolete_keys files obs false).2
        = (files.map (fun f => ((fileTranslations f).filter
            (fun p => obs.contains p.1)).length)).sum := by
  have hfil : fileTranslations ((delete_obsolete_keys files obs false).1.get
      ⟨i, hi2⟩) = (fileTranslations (files.get ⟨i, hi⟩)).filter
        (fun p => !(obs.contains p.1)) := by
    rw [delete_obsolete_keys_get files obs i hi hi2]
    by_cases ho : (obs.isEmpty : Bool) = true
    · rw [if_pos ho]
      have hnil : obs = [] := by
        cases hcase : obs
        · rfl
        · rw [hcase] at ho; simp at ho
      subst hnil
      symm
      refine List.filter_eq_self.mpr ?_
      intro p _hp
      rfl
    · rw [if_neg ho]
      exact deleteFile_translations obs (files.get ⟨i, hi⟩)
  refine ⟨hfil, ?_, ?_, delete_obsolete_keys_count files obs⟩
  · intro k hk hmem
    rw [hfil] at hmem
    unfold hasKey at hmem
    obtain ⟨p, hp, hpk⟩ := List.mem_map.mp hmem
    have hp2 := List.mem_filter.mp hp
    have hnm : ¬ p.1 ∈ obs := by
      have hfalse := hp2.2
      simp only [Bool.not_eq_eq_eq_not, Bool.not_true] at hfalse
      intro hc
      have h1 : List.elem p.1 obs = true := List.elem_iff.mpr hc
      have h2 : List.elem p.1 obs = false := hfalse
      rw [h1] at h2
      cases h2
    exact hnm (hpk ▸ hk)
  · intro p hp hpo
    rw [hfil]
    refine List.mem_filter.mpr ⟨hp, ?_⟩
    have hc : obs.contains p.1 = false := by
      cases hcase : obs.contains p.1
      · rfl
      · exact absurd (List.elem_iff.mp hcase) hpo
    rw [hc]
    rfl

/-- Witness for C8: deleting key "B" from a two-file directory. -/
theorem delete_complete_frame_witness :
    (fileTranslations ((delete_obsolete_keys [sampleEn, sampleDe]
          ["B"] false).1.get ⟨0, by decide⟩)
        = (fileTranslations ([sampleEn, sampleDe].get ⟨0, by decide⟩)).filter
            (fun p => !(["B"].contains p.1)))
    ∧ (∀ k ∈ ["B"], ¬ hasKey (fileTranslations
          ((delete_obsolete_keys [sampleEn, sampleDe] ["B"] false).1.get
            ⟨0, by decide⟩)) k)
    ∧ (∀ p ∈ fileTranslations ([sampleEn, sampleDe].get ⟨0, by decide⟩),
          ¬ p.1 ∈ ["B"] →
          p ∈ fileTranslations
            ((delete_obsolete_keys [sampleEn, sampleDe] ["B"] false).1.get
              ⟨0, by decide⟩))
    ∧ (delete_obsolete_keys [sampleEn, sampleDe] ["B"] false).2
        = ([sampleEn, sampleDe].map (fun f => ((fileTranslations f).filter
            (fun p => ["B"].contains p.1)).length)).sum :=
  delete_complete_frame [sampleEn, sampleDe] ["B"] 0 (by decide) (by decide)

/-- Claim C9: load recovery — when a catalog file's content is empty or has
no parseable structure (the parser yields no document), `load_yaml_file`
returns a catalog with empty locale and empty translations instead of
failing. -/
theorem load_recovers_empty (parsed : Option YamlData)
    (h : parsed = none) :
    (load_yaml_file parsed).locale = some ""
    ∧ (load_yaml_file parsed).translations = some [] := by
  subst h
  exact ⟨rfl, rfl⟩

/-- Witness for C9: loading an unparseable file. -/
theorem load_recovers_empty_witness :
    (load_yaml_file none).locale = some ""
    ∧ (load_yaml_file none).translations = some [] :=
  load_recovers_empty none rfl


end TranslationSync
